import Mathlib

/-!
Verification development for the wave-picking optimiser
(Dinkelbach driver `src/Solver/solver_V3.py`, instance model
`src/nosso_projeto/model.py`, parsers `src/parser.py` and
`src/nosso_projeto/data_parser.py`).

Conventions of the shallow embedding:
* Python `dict[int, int]` is modelled as an association list
  `List (ℤ × ℤ)` with Python insertion semantics (`dictInsert`):
  an existing key keeps its position and gets the new value, a new
  key is appended at the end.  Keys are therefore pairwise distinct.
* Python `set` objects used by the solver are modelled as duplicate-free
  lists in insertion order (`setInsert`); only their length, membership
  and element sums are observable in the verified properties.
* Python floats are modelled as rationals `ℚ`; all comparisons of the
  source are exact comparisons here.
* Fallible code returns `Except PErr`; `PErr.valueError` stands for a
  Python `ValueError`, `PErr.indexError` for an uncaught `IndexError`.
* Instance files are modelled after tokenisation: a file is a
  `List (List ℤ)`, one token list per line.
-/

/-- Error kind raised by the parsers: Python `ValueError` vs an
uncaught `IndexError`. -/
inductive PErr where
  | valueError : PErr
  | indexError : PErr
deriving Repr, DecidableEq

/-- Python dict insertion: update in place if the key exists, else
append at the end (`d[k] = v`). -/
def dictInsert : List (ℤ × ℤ) → ℤ → ℤ → List (ℤ × ℤ)
  | [], k, v => [(k, v)]
  | (k0, v0) :: rest, k, v =>
    if k0 = k then (k0, v) :: rest else (k0, v0) :: dictInsert rest k v

/-- Build a Python dict from a list of key/value pairs (later pairs win,
as in a dict comprehension or a `d[k] = v` loop). -/
def dictOfPairs (ps : List (ℤ × ℤ)) : List (ℤ × ℤ) :=
  ps.foldl (fun d kv => dictInsert d kv.1 kv.2) []

/-- Python `d.get(k, fallback)`. -/
def dictGetD (d : List (ℤ × ℤ)) (k : ℤ) (fallback : ℤ) : ℤ :=
  ((d.find? (fun kv => kv.1 == k)).map Prod.snd).getD fallback

/-- Python `k in d`. -/
def dictMem (d : List (ℤ × ℤ)) (k : ℤ) : Bool :=
  d.any (fun kv => kv.1 == k)

/-- `src/parser.py` / `src/nosso_projeto/model.py` `Order`:
id, item → quantity dict, and the precomputed total units. -/
structure Order where
  id : ℕ
  items : List (ℤ × ℤ)
  total_units : ℤ
deriving Repr, DecidableEq

/-- `src/parser.py` / `src/nosso_projeto/model.py` `Aisle`:
id and item → available quantity dict. -/
structure Aisle where
  id : ℕ
  inventory : List (ℤ × ℤ)
deriving Repr, DecidableEq

/-- `src/nosso_projeto/model.py` `Instance`.  (`src/parser.py`'s
`Instance` dataclass is identical except that it lacks the
`orders_by_item` field; we share one structure and keep that field
empty where the source has none.) -/
structure Instance where
  num_orders : ℤ
  num_items : ℤ
  num_aisles : ℤ
  orders : List Order
  aisles : List Aisle
  item_locations : List (ℤ × List ℕ)
  orders_by_item : List (ℤ × List ℕ)
  min_wave_size : ℤ
  max_wave_size : ℤ
deriving Repr, DecidableEq

/-- Append `aid` to the list stored under `item`, creating the entry at
the end if absent — one step of `build_item_locations` /
`build_orders_by_item` (Python `dict` of `list`s with `append`). -/
def ilInsert : List (ℤ × List ℕ) → ℤ → ℕ → List (ℤ × List ℕ)
  | [], item, aid => [(item, [aid])]
  | (k, v) :: rest, item, aid =>
    if k = item then (k, v ++ [aid]) :: rest
    else (k, v) :: ilInsert rest item aid

/-- Lookup in an item → id-list map. -/
def ilLookup (m : List (ℤ × List ℕ)) (k : ℤ) : Option (List ℕ) :=
  (m.find? (fun kv => kv.1 == k)).map Prod.snd

/-- Lookup with `[]` fallback. -/
def ilLookupD (m : List (ℤ × List ℕ)) (k : ℤ) : List ℕ :=
  (ilLookup m k).getD []

/-- Fold one aisle's inventory keys into the reverse index — the inner
loop of `Instance.build_item_locations`. -/
def addAisleLocations (m : List (ℤ × List ℕ)) (a : Aisle) : List (ℤ × List ℕ) :=
  a.inventory.foldl (fun m kv => ilInsert m kv.1 a.id) m

/-- `Instance.build_item_locations` (identical in `src/parser.py` and
`src/nosso_projeto/model.py`): clear, then for each aisle in order, for
each item key of its inventory, append the aisle id. -/
def build_item_locations (aisles : List Aisle) : List (ℤ × List ℕ) :=
  aisles.foldl addAisleLocations []

/-- Fold one order's item keys into the reverse index — the inner loop
of `Instance.build_orders_by_item`. -/
def addOrderItems (m : List (ℤ × List ℕ)) (o : Order) : List (ℤ × List ℕ) :=
  o.items.foldl (fun m kv => ilInsert m kv.1 o.id) m

/-- `src/nosso_projeto/model.py` `Instance.build_orders_by_item`:
item id → list of order ids requiring it.  Defined in the source but
never invoked anywhere in the repository. -/
def build_orders_by_item (orders : List Order) : List (ℤ × List ℕ) :=
  orders.foldl addOrderItems []

/-- Group a flat payload `id₁ qty₁ id₂ qty₂ …` into pairs (the indexed
loops `items_data[2*i], items_data[2*i+1]` of both parsers). -/
def toPairs : List ℤ → List (ℤ × ℤ)
  | a :: b :: rest => (a, b) :: toPairs rest
  | _ => []

/-- `src/parser.py` order-record body: dict built by repeated insertion,
`total_units` accumulates every quantity of the payload (duplicated item
ids overwrite the dict entry but still add to the total). -/
def orderOfPayload (oid : ℕ) (payload : List ℤ) : Order :=
  let ps := toPairs payload
  { id := oid, items := dictOfPairs ps, total_units := (ps.map Prod.snd).sum }

/-- `src/parser.py` `InstanceParser.parse`, order section: one line per
record; a missing line raises `ValueError` (premature EOF), an empty
line raises `IndexError` (`parts[0]`), a payload whose length differs
from twice the declared count raises `ValueError`. -/
def readOrders (lines : List (List ℤ)) : ℕ → ℕ → ℕ → Except PErr (List Order × ℕ)
  | idx, _, 0 => .ok ([], idx)
  | idx, oid, n + 1 =>
    match lines[idx]? with
    | none => .error .valueError
    | some [] => .error .indexError
    | some (k :: rest) =>
      if ((rest.length : ℤ)) ≠ 2 * k then .error .valueError
      else
        match readOrders lines (idx + 1) (oid + 1) n with
        | .error e => .error e
        | .ok (os, idx2) => .ok (orderOfPayload oid rest :: os, idx2)

/-- `src/parser.py` `InstanceParser.parse`, aisle section: reading stops
without error at end of file or at a line whose payload length mismatches
the declared count (taken to be the limits line); an empty line raises
`IndexError` (`parts[0]`). -/
def readAisles (lines : List (List ℤ)) : ℕ → ℕ → ℕ → Except PErr (List Aisle × ℕ)
  | idx, _, 0 => .ok ([], idx)
  | idx, aid, n + 1 =>
    match lines[idx]? with
    | none => .ok ([], idx)
    | some [] => .error .indexError
    | some (l :: rest) =>
      if ((rest.length : ℤ)) ≠ 2 * l then .ok ([], idx)
      else
        match readAisles lines (idx + 1) (aid + 1) n with
        | .error e => .error e
        | .ok (as, idx2) => .ok (⟨aid, dictOfPairs (toPairs rest)⟩ :: as, idx2)

/-- `src/parser.py` `InstanceParser.parse`: header inside a
`try … except (ValueError, IndexError)` that re-raises `ValueError`;
then the order block, the aisle block, the optional limits line (its
own `try` never lets an error escape), then `build_item_locations`.
The `src/parser.py` `Instance` has no `orders_by_item` field; the
shared structure keeps it empty here. -/
def parseInstance (lines : List (List ℤ)) : Except PErr Instance :=
  match lines[0]? with
  | none => .error .valueError
  | some header =>
    match header with
    | [nO, nI, nA] =>
      match readOrders lines 1 0 nO.toNat with
      | .error e => .error e
      | .ok (orders, idx) =>
        match readAisles lines idx 0 nA.toNat with
        | .error e => .error e
        | .ok (aisles, idx2) =>
          let wave : ℤ × ℤ :=
            match lines[idx2]? with
            | some [lo, hi] => (lo, hi)
            | _ => (0, 0)
          .ok { num_orders := nO, num_items := nI, num_aisles := nA,
                orders := orders, aisles := aisles,
                item_locations := build_item_locations aisles,
                orders_by_item := [],
                min_wave_size := wave.1, max_wave_size := wave.2 }
    | _ => .error .valueError

/-- `src/nosso_projeto/data_parser.py` order-record body: dict
comprehension over `range(parts[0])`; `total_units` sums the *dict
values* (after duplicate keys collapse).  A non-positive count yields an
empty dict; a payload shorter than twice the count raises `IndexError`. -/
def dpReadOrder (parts : List ℤ) (oid : ℕ) : Except PErr Order :=
  match parts with
  | [] => .error .indexError
  | k :: rest =>
    if k ≤ 0 then .ok { id := oid, items := [], total_units := 0 }
    else if rest.length < 2 * k.toNat then .error .indexError
    else
      let items := dictOfPairs (toPairs (rest.take (2 * k.toNat)))
      .ok { id := oid, items := items, total_units := (items.map Prod.snd).sum }

/-- `src/nosso_projeto/data_parser.py` order section: no bounds check,
so a missing line raises `IndexError`. -/
def dpReadOrders (lines : List (List ℤ)) : ℕ → ℕ → ℕ → Except PErr (List Order × ℕ)
  | idx, _, 0 => .ok ([], idx)
  | idx, oid, n + 1 =>
    match lines[idx]? with
    | none => .error .indexError
    | some parts =>
      match dpReadOrder parts oid with
      | .error e => .error e
      | .ok o =>
        match dpReadOrders lines (idx + 1) (oid + 1) n with
        | .error e => .error e
        | .ok (os, idx2) => .ok (o :: os, idx2)

/-- `src/nosso_projeto/data_parser.py` aisle section: break on end of
file or an empty line, break on `len(parts) <= 2 and aisle_id > 0`
(taken to be the limits line), else a dict comprehension like the order
records. -/
def dpReadAisles (lines : List (List ℤ)) : ℕ → ℕ → ℕ → Except PErr (List Aisle × ℕ)
  | idx, _, 0 => .ok ([], idx)
  | idx, aid, n + 1 =>
    match lines[idx]? with
    | none => .ok ([], idx)
    | some parts =>
      if parts.isEmpty then .ok ([], idx)
      else if parts.length ≤ 2 ∧ 0 < aid then .ok ([], idx)
      else
        match parts with
        | [] => .ok ([], idx)
        | l :: rest =>
          if l ≤ 0 then
            match dpReadAisles lines (idx + 1) (aid + 1) n with
            | .error e => .error e
            | .ok (as, idx2) => .ok (⟨aid, []⟩ :: as, idx2)
          else if rest.length < 2 * l.toNat then .error .indexError
          else
            match dpReadAisles lines (idx + 1) (aid + 1) n with
            | .error e => .error e
            | .ok (as, idx2) =>
              .ok (⟨aid, dictOfPairs (toPairs (rest.take (2 * l.toNat)))⟩ :: as, idx2)

/-- `src/nosso_projeto/data_parser.py` `InstanceParser.parse`: header
(unpacking errors propagate), order block, aisle block, optional limits
line, then `build_item_locations` only.  `build_orders_by_item` is
*never called*, so `orders_by_item` keeps the dataclass default `{}`. -/
def dpParseInstance (lines : List (List ℤ)) : Except PErr Instance :=
  match lines[0]? with
  | none => .error .indexError
  | some header =>
    match header with
    | [nO, nI, nA] =>
      match dpReadOrders lines 1 0 nO.toNat with
      | .error e => .error e
      | .ok (orders, idx) =>
        match dpReadAisles lines idx 0 nA.toNat with
        | .error e => .error e
        | .ok (aisles, idx2) =>
          let wave : ℤ × ℤ :=
            match lines[idx2]? with
            | some [lo, hi] => (lo, hi)
            | _ => (0, 0)
          .ok { num_orders := nO, num_items := nI, num_aisles := nA,
                orders := orders, aisles := aisles,
                item_locations := build_item_locations aisles,
                orders_by_item := [],
                min_wave_size := wave.1, max_wave_size := wave.2 }
    | _ => .error .valueError

/-- `self.instance.orders[o_id]` — order ids produced by the parsers
index the orders list (ids are dense `0,1,2,…`); out-of-range access is
totalised with an empty order. -/
def getOrder (inst : Instance) (oid : ℕ) : Order :=
  inst.orders.getD oid { id := oid, items := [], total_units := 0 }

/-- `self.instance.aisles[a_id]`, totalised like `getOrder`. -/
def getAisle (inst : Instance) (aid : ℕ) : Aisle :=
  inst.aisles.getD aid { id := aid, inventory := [] }

/-- Python `set.add` on sets of ids, modelled in insertion order. -/
def setInsert (s : List ℕ) (x : ℕ) : List ℕ :=
  if x ∈ s then s else s ++ [x]

/-- Python `set.update` with a list of ids. -/
def setUnion (s : List ℕ) (t : List ℕ) : List ℕ :=
  t.foldl setInsert s

/-- `set.add` for item-id sets. -/
def isetInsert (s : List ℤ) (x : ℤ) : List ℤ :=
  if x ∈ s then s else s ++ [x]

/-- `WaveSolver._generate_initial_solution` (solver_V3): set of distinct
aisles needed for every item of an order
(`if item_id in item_locations: required_aisles.update(...)`). -/
def requiredAisles (inst : Instance) (o : Order) : List ℕ :=
  o.items.foldl
    (fun s kv =>
      match ilLookup inst.item_locations kv.1 with
      | some l => setUnion s l
      | none => s) []

/-- Scoreable orders with their greedy density score
`total_units / len(required_aisles)`; orders needing no aisle are
excluded. -/
def orderScores (inst : Instance) : List (ℚ × Order) :=
  inst.orders.filterMap
    (fun o =>
      let n := (requiredAisles inst o).length
      if 0 < n then some (((o.total_units : ℚ) / (n : ℚ)), o) else none)

/-- Insert keeping existing elements with a ≥ score first — one step of
a stable descending sort (Python `list.sort(key=…, reverse=True)`). -/
def insertDesc (x : ℚ × Order) : List (ℚ × Order) → List (ℚ × Order)
  | [] => [x]
  | y :: ys => if x.1 ≤ y.1 then y :: insertDesc x ys else x :: y :: ys

/-- Stable descending sort by score. -/
def sortScoresDesc (l : List (ℚ × Order)) : List (ℚ × Order) :=
  l.foldr insertDesc []

/-- Greedy accumulation: accept each order (in score order) whose units
still fit under `max_wave_size`; returns the selected ids (a set in
insertion order) and the cumulative units. -/
def greedyAccum (inst : Instance) : List ℕ × ℤ :=
  (sortScoresDesc (orderScores inst)).foldl
    (fun acc so =>
      if acc.2 + so.2.total_units ≤ inst.max_wave_size then
        (setInsert acc.1 so.2.id, acc.2 + so.2.total_units)
      else acc)
    ([], 0)

/-- The greedily selected order ids. -/
def seedSelected (inst : Instance) : List ℕ := (greedyAccum inst).1

/-- Cumulative units of the greedy selection. -/
def seedUnits (inst : Instance) : ℤ := (greedyAccum inst).2

/-- `all_items_in_heuristic_wave`: union of the item keys of the
selected orders. -/
def seedTouchedItems (inst : Instance) : List ℤ :=
  (seedSelected inst).foldl
    (fun s oid => (getOrder inst oid).items.foldl (fun s kv => isetInsert s kv.1) s) []

/-- `heuristic_aisles_set`: union of `item_locations[item]` over all
items of all selected orders. -/
def seedAisleUnion (inst : Instance) : List ℕ :=
  (seedSelected inst).foldl
    (fun s oid =>
      (getOrder inst oid).items.foldl
        (fun s kv =>
          match ilLookup inst.item_locations kv.1 with
          | some l => setUnion s l
          | none => s) s) []

/-- Seed demand of an item: `sum(orders[o_id].items.get(item_id, 0))`
over the selected orders. -/
def seedDemand (inst : Instance) (item : ℤ) : ℤ :=
  ((seedSelected inst).map (fun oid => dictGetD (getOrder inst oid).items item 0)).sum

/-- Seed supply of an item: `sum(aisles[a_id].inventory.get(item_id, 0))`
over the unioned aisles. -/
def seedSupply (inst : Instance) (item : ℤ) : ℤ :=
  ((seedAisleUnion inst).map (fun aid => dictGetD (getAisle inst aid).inventory item 0)).sum

/-- The explicit post-hoc feasibility check: the source loop returns the
zero triple at the first item whose demand exceeds supply, which is
observationally this `all` check. -/
def seedInventoryOk (inst : Instance) : Bool :=
  (seedTouchedItems inst).all (fun item => decide (seedDemand inst item ≤ seedSupply inst item))

/-- `WaveSolver.best_solution`: the Best-Solution Register. -/
structure BestSol where
  orders : List ℕ
  aisles : List ℕ
  objective : ℚ
  total_units : ℤ
deriving Repr, DecidableEq

/-- `WaveSolver.__init__` register value. -/
def initialBest : BestSol :=
  { orders := [], aisles := [], objective := 0, total_units := 0 }

/-- `WaveSolver._generate_initial_solution`: returns the
`(ratio, orders, aisles)` triple and the register content after the
call (the register is written only on the success path). -/
def generateInitialSolution (inst : Instance) (best : BestSol) :
    (ℚ × List ℕ × List ℕ) × BestSol :=
  if seedUnits inst < inst.min_wave_size then ((0, [], []), best)
  else if (seedAisleUnion inst).isEmpty then ((0, [], []), best)
  else if seedInventoryOk inst then
    ((((seedUnits inst : ℚ) / ((seedAisleUnion inst).length : ℚ)),
      seedSelected inst, seedAisleUnion inst),
     { orders := seedSelected inst, aisles := seedAisleUnion inst,
       objective := ((seedUnits inst : ℚ) / ((seedAisleUnion inst).length : ℚ)),
       total_units := seedUnits inst })
  else ((0, [], []), best)

/-- One inventory-sufficiency constraint of the linear subproblem:
`Σ_{o ∈ relevantOrders} quantity(o,item)·x_o ≤
 Σ_{a ∈ relevantAisles} supply(a,item)·y_a`. -/
structure InvConstraint where
  item : ℤ
  relevantOrders : List ℕ
  relevantAisles : List ℕ
deriving Repr, DecidableEq

/-- The constraint system of `WaveSolver._solve_subproblem` (solver_V3),
abstracting the Gurobi model: the two wave-size constraints are added
unconditionally; one inventory constraint is added per entry of
`instance.orders_by_item`, with aisles from `item_locations.get(item, [])`. -/
structure Subproblem where
  ratio : ℚ
  minConstr : ℤ
  maxConstr : ℤ
  invConstraints : List InvConstraint
deriving Repr, DecidableEq

/-- `WaveSolver._solve_subproblem`, constraint construction part. -/
def buildSubproblem (inst : Instance) (ratioR : ℚ) : Subproblem :=
  { ratio := ratioR,
    minConstr := inst.min_wave_size,
    maxConstr := inst.max_wave_size,
    invConstraints :=
      inst.orders_by_item.map
        (fun p => ⟨p.1, p.2, ilLookupD inst.item_locations p.1⟩) }

/-- Gurobi termination status, as far as the driver inspects it
(`status == GRB.OPTIMAL`). -/
inductive GStatus where
  | optimal : GStatus
  | timeLimit : GStatus
  | infeasible : GStatus
  | other : GStatus
deriving Repr, DecidableEq

/-- What `_solve_subproblem` returns to the driver: the subproblem
objective value `F(R)`, the selected order/aisle ids, and the status.
The external MILP oracle produces it; the driver treats it as data. -/
structure OracleResponse where
  objVal : ℚ
  orders : List ℕ
  aisles : List ℕ
  status : GStatus
deriving Repr, DecidableEq

/-- Environment of one loop iteration: the wall-clock time elapsed when
the iteration starts, and the oracle's response to the subproblem call. -/
structure IterInput where
  elapsed : ℚ
  resp : OracleResponse
deriving Repr, DecidableEq

/-- Driver loop state across iterations of `WaveSolver.solve`. -/
structure DriverState where
  currentR : ℚ
  lastOrders : List ℕ
  lastAisles : List ℕ
  best : BestSol
  hasMomentum : Bool
deriving Repr, DecidableEq

/-- Reasons the iteration loop of `WaveSolver.solve` stops. -/
inductive StopReason where
  | timeExhausted : StopReason
  | converged : StopReason
  | infeasibleSub : StopReason
  | stagnated : StopReason
deriving Repr, DecidableEq

/-- `CONVERGENCE_TOL = 1e-6`. -/
def CONVERGENCE_TOL : ℚ := 1 / 1000000

/-- `base_iter_time = 15.0`. -/
def baseIterTime : ℚ := 15

/-- `momentum_bonus_factor = 2.0`. -/
def momentumBonusFactor : ℚ := 2

/-- `significant_improvement_threshold = 1.10`. -/
def significantImprovementThreshold : ℚ := 11 / 10

/-- `MAX_ITERATIONS = 30`. -/
def MAX_ITERATIONS : ℕ := 30

/-- The per-iteration time allocation: base slice, doubled under
momentum, clamped to the remaining global time. -/
def iterTimeAlloc (hasMomentum : Bool) (remaining : ℚ) : ℚ :=
  min (if hasMomentum then baseIterTime * momentumBonusFactor else baseIterTime) remaining

/-- Total units of a returned order selection:
`sum(orders[o_id].total_units for o_id in new_orders)`. -/
def sumUnits (inst : Instance) (ids : List ℕ) : ℤ :=
  (ids.map (fun oid => (getOrder inst oid).total_units)).sum

/-- The true ratio of an oracle candidate:
`total_units / len(new_aisles)`. -/
def candidateRatio (inst : Instance) (resp : OracleResponse) : ℚ :=
  ((sumUnits inst resp.orders : ℚ)) / ((resp.aisles.length : ℚ))

/-- One iteration of the loop of `WaveSolver.solve`: safety-margin
check, convergence check (`F_R <= tol and status == OPTIMAL`),
empty-aisle check, then promote on strict tolerance-exceeding
improvement (momentum flag updated from the 10% threshold) or stop as
stagnated. -/
def iterStep (inst : Instance) (timeLimitG : ℚ) (st : DriverState) (inp : IterInput) :
    DriverState ⊕ StopReason :=
  if timeLimitG - inp.elapsed ≤ 5 then .inr .timeExhausted
  else if inp.resp.objVal ≤ CONVERGENCE_TOL ∧ inp.resp.status = .optimal then .inr .converged
  else if inp.resp.aisles.isEmpty then .inr .infeasibleSub
  else if st.currentR + CONVERGENCE_TOL < candidateRatio inst inp.resp then
    .inl { currentR := candidateRatio inst inp.resp,
           lastOrders := inp.resp.orders,
           lastAisles := inp.resp.aisles,
           best := { orders := inp.resp.orders, aisles := inp.resp.aisles,
                     objective := candidateRatio inst inp.resp,
                     total_units := sumUnits inst inp.resp.orders },
           hasMomentum :=
             decide (st.currentR * significantImprovementThreshold ≤ candidateRatio inst inp.resp) }
  else .inr .stagnated

/-- Observables of a driver run: final state, stop reason (if the loop
stopped by itself), number of iterations entered, the oracle time
allocations handed out, and the visited loop states. -/
structure RunResult where
  final : DriverState
  stop : Option StopReason
  iters : ℕ
  allocs : List ℚ
  trace : List DriverState
deriving Repr, DecidableEq

/-- The iteration loop of `WaveSolver.solve`: bounded by the remaining
iteration budget (`for i in range(MAX_ITERATIONS)`) and by the supply of
oracle responses; each pass re-checks the safety margin, computes the
momentum-adjusted allocation, and steps. -/
def runLoop (inst : Instance) (timeLimitG : ℚ) :
    List IterInput → ℕ → DriverState → RunResult
  | _, 0, st => ⟨st, none, 0, [], [st]⟩
  | [], _, st => ⟨st, none, 0, [], [st]⟩
  | inp :: rest, n + 1, st =>
    match iterStep inst timeLimitG st inp with
    | .inr reason =>
      ⟨st, some reason, 1,
       if timeLimitG - inp.elapsed ≤ 5 then []
       else [iterTimeAlloc st.hasMomentum (timeLimitG - inp.elapsed)],
       [st]⟩
    | .inl st2 =>
      let r := runLoop inst timeLimitG rest n st2
      ⟨r.final, r.stop, r.iters + 1,
       iterTimeAlloc st.hasMomentum (timeLimitG - inp.elapsed) :: r.allocs,
       st :: r.trace⟩

/-- `WaveSolver.solve`: seed with the greedy heuristic (register starts
at the `__init__` value, momentum starts false), then iterate. -/
def driverRun (inst : Instance) (timeLimitG : ℚ) (inputs : List IterInput) : RunResult :=
  let seeded := generateInitialSolution inst initialBest
  runLoop inst timeLimitG inputs MAX_ITERATIONS
    { currentR := seeded.1.1,
      lastOrders := seeded.1.2.1,
      lastAisles := seeded.1.2.2,
      best := seeded.2,
      hasMomentum := false }

/-- The spec's worked example instance file: two orders (order 0: item 0
times 3, order 1: item 0 times 5), one aisle stocking 10 units of item 0,
wave bounds `[3, 8]`. -/
def exLines : List (List ℤ) := [[2, 1, 1], [1, 0, 3], [1, 0, 5], [1, 0, 10], [3, 8]]

/-- The instance the driver pipeline (`data_parser.parse`) produces from
`exLines`; note the empty `orders_by_item`. -/
def exInst : Instance :=
  { num_orders := 2, num_items := 1, num_aisles := 1,
    orders := [{ id := 0, items := [(0, 3)], total_units := 3 },
               { id := 1, items := [(0, 5)], total_units := 5 }],
    aisles := [{ id := 0, inventory := [(0, 10)] }],
    item_locations := [(0, [0])],
    orders_by_item := [],
    min_wave_size := 3, max_wave_size := 8 }

/-- `exInst` with `orders_by_item` filled the way
`build_orders_by_item` would have, had it been called. -/
def exInstRepaired : Instance :=
  { exInst with orders_by_item := build_orders_by_item exInst.orders }

/-- C1: the driver pipeline parses instances through
`data_parser.InstanceParser.parse`, which never calls
`build_orders_by_item`; hence `orders_by_item` is empty and
`_solve_subproblem` builds every oracle subproblem with *zero*
inventory-sufficiency constraints, although item 0 is demanded by both
orders.  Had `orders_by_item` been built (as `model.py` provides for),
the subproblem would carry the constraint.  This contradicts the
spec's inventory invariant and its subproblem formulation. -/
theorem subproblem_has_no_inventory_constraints :
    dpParseInstance exLines = Except.ok exInst ∧
    exInst.orders_by_item = [] ∧
    (∃ o ∈ exInst.orders, dictMem o.items 0 = true) ∧
    (buildSubproblem exInst 8).invConstraints = [] ∧
    (buildSubproblem exInstRepaired 8).invConstraints =
      [⟨0, [0, 1], [0]⟩] := by
  refine ⟨by rfl, by rfl, ⟨⟨0, [(0, 3)], 3⟩, by decide⟩, by rfl, by rfl⟩

/-- C9: when the greedy seeder returns the zero triple, the
Best-Solution Register still holds the `__init__` value. -/
theorem seeder_zero_triple_keeps_register (inst : Instance)
    (h : (generateInitialSolution inst initialBest).1 = (0, [], [])) :
    (generateInitialSolution inst initialBest).2 = initialBest := by
  unfold generateInitialSolution at h ⊢
  split_ifs at h ⊢ with h1 h2 h3
  · rfl
  · rfl
  · exfalso
    have hais : seedAisleUnion inst = [] := congrArg (fun t => t.2.2) h
    rw [hais] at h2
    simp at h2
  · rfl

/-- Instance on which every seeder path rejects: a single order of 5
units of item 0, one aisle supplying only 3, wave bounds `[0, 10]`. -/
def c3Inst : Instance :=
  { num_orders := 1, num_items := 1, num_aisles := 1,
    orders := [{ id := 0, items := [(0, 5)], total_units := 5 }],
    aisles := [{ id := 0, inventory := [(0, 3)] }],
    item_locations := [(0, [0])],
    orders_by_item := [],
    min_wave_size := 0, max_wave_size := 10 }

/-- C9 witness: on an instance whose seed is inventory-infeasible the
seeder returns the zero triple and the register is untouched. -/
theorem seeder_zero_triple_keeps_register_witness :
    (generateInitialSolution c3Inst initialBest).2 = initialBest :=
  seeder_zero_triple_keeps_register c3Inst (by decide)

/-- C3: if some item touched by the greedily accepted orders has more
demand than the unioned required aisles supply, the seeder returns the
zero triple. -/
theorem seeder_rejects_infeasible_seed (inst : Instance)
    (h : ∃ item ∈ seedTouchedItems inst, seedSupply inst item < seedDemand inst item) :
    (generateInitialSolution inst initialBest).1 = (0, [], []) := by
  unfold generateInitialSolution
  split_ifs with h1 h2 h3
  · rfl
  · rfl
  · exfalso
    obtain ⟨item, hmem, hlt⟩ := h
    have hall := List.all_eq_true.mp h3 item hmem
    rw [decide_eq_true_iff] at hall
    exact absurd hall (not_le.mpr hlt)
  · rfl

/-- C3 witness: on `c3Inst` the greedy selection demands 5 units of
item 0 against a supply of 3, and the seeder indeed rejects. -/
theorem seeder_rejects_infeasible_seed_witness :
    (∃ item ∈ seedTouchedItems c3Inst, seedSupply c3Inst item < seedDemand c3Inst item) ∧
    (generateInitialSolution c3Inst initialBest).1 = (0, [], []) :=
  ⟨by decide, seeder_rejects_infeasible_seed c3Inst (by decide)⟩

/-- C2: with the safety margin passed, the loop declares convergence
exactly when the oracle status is proven optimal *and* `F(R)` is at
most the tolerance; a small objective with a non-optimal status
proceeds to the empty-aisle and ratio-improvement checks instead. -/
theorem convergence_requires_proven_optimal
    (inst : Instance) (tG : ℚ) (st : DriverState) (inp : IterInput)
    (h : 5 < tG - inp.elapsed) :
    (iterStep inst tG st inp = Sum.inr StopReason.converged ↔
      inp.resp.status = GStatus.optimal ∧ inp.resp.objVal ≤ CONVERGENCE_TOL) ∧
    (inp.resp.objVal ≤ CONVERGENCE_TOL → inp.resp.status ≠ GStatus.optimal →
      iterStep inst tG st inp = Sum.inr StopReason.infeasibleSub ∨
      iterStep inst tG st inp = Sum.inr StopReason.stagnated ∨
      ∃ st2, iterStep inst tG st inp = Sum.inl st2) := by
  unfold iterStep
  rw [if_neg (not_le.mpr h)]
  constructor
  · constructor
    · intro hc
      split_ifs at hc with h1 h2 h3
      · exact ⟨h1.2, h1.1⟩
      all_goals simp at hc
    · rintro ⟨hs, ho⟩
      rw [if_pos ⟨ho, hs⟩]
  · intro hv hs
    rw [if_neg (fun hh => hs hh.2)]
    split_ifs with h1 h2
    · exact Or.inl rfl
    · exact Or.inr (Or.inr ⟨_, rfl⟩)
    · exact Or.inr (Or.inl rfl)

/-- Small driver-level witness instance: one order of 5 units of item 0,
one aisle supplying 5, wave bounds `[0, 10]`. -/
def wInst : Instance :=
  { num_orders := 1, num_items := 1, num_aisles := 1,
    orders := [{ id := 0, items := [(0, 5)], total_units := 5 }],
    aisles := [{ id := 0, inventory := [(0, 5)] }],
    item_locations := [(0, [0])],
    orders_by_item := [],
    min_wave_size := 0, max_wave_size := 10 }

/-- Fresh driver state used by the step-level witnesses. -/
def wState : DriverState :=
  { currentR := 0, lastOrders := [], lastAisles := [], best := initialBest,
    hasMomentum := false }

/-- An improving oracle response for `wInst`. -/
def wInput : IterInput :=
  { elapsed := 0,
    resp := { objVal := 1, orders := [0], aisles := [0], status := .timeLimit } }

/-- The state `iterStep` reaches from `wState` on `wInput`. -/
def wStateAfter : DriverState :=
  { currentR := 5, lastOrders := [0], lastAisles := [0],
    best := { orders := [0], aisles := [0], objective := 5, total_units := 5 },
    hasMomentum := true }

/-- A proven-optimal response with tiny objective, for the C2 witness. -/
def cInput : IterInput :=
  { elapsed := 0, resp := { objVal := 0, orders := [], aisles := [], status := .optimal } }

/-- C2 witness at a concrete state and response. -/
theorem convergence_requires_proven_optimal_witness :
    (iterStep wInst 600 wState cInput = Sum.inr StopReason.converged ↔
      cInput.resp.status = GStatus.optimal ∧ cInput.resp.objVal ≤ CONVERGENCE_TOL) ∧
    (cInput.resp.objVal ≤ CONVERGENCE_TOL → cInput.resp.status ≠ GStatus.optimal →
      iterStep wInst 600 wState cInput = Sum.inr StopReason.infeasibleSub ∨
      iterStep wInst 600 wState cInput = Sum.inr StopReason.stagnated ∨
      ∃ st2, iterStep wInst 600 wState cInput = Sum.inl st2) :=
  convergence_requires_proven_optimal wInst 600 wState cInput (by norm_num [cInput])

/-- C5: the allocation is the base slice, doubled exactly under the
momentum flag, clamped to the remaining global time; the loop hands the
oracle exactly that allocation computed from the *incoming* state's
flag; and a continuing iteration sets the flag according to the 10%
relative-gain threshold (true iff the new ratio reaches 1.10 times the
previous one, false otherwise — including mild improvements). -/
theorem momentum_policy :
    (∀ (m : Bool) (remaining : ℚ),
      iterTimeAlloc m remaining =
        min (baseIterTime * (if m then momentumBonusFactor else 1)) remaining ∧
      iterTimeAlloc m remaining ≤ remaining) ∧
    (∀ (inst : Instance) (tG : ℚ) (st : DriverState) (inp : IterInput)
      (rest : List IterInput) (n : ℕ), 5 < tG - inp.elapsed →
      (runLoop inst tG (inp :: rest) (n + 1) st).allocs.head? =
        some (iterTimeAlloc st.hasMomentum (tG - inp.elapsed))) ∧
    (∀ (inst : Instance) (tG : ℚ) (st : DriverState) (inp : IterInput) (st2 : DriverState),
      iterStep inst tG st inp = Sum.inl st2 →
      (st2.hasMomentum = true ↔
        st.currentR * significantImprovementThreshold ≤ candidateRatio inst inp.resp)) := by
  refine ⟨?_, ?_, ?_⟩
  · intro m remaining
    cases m <;> constructor <;>
      simp [iterTimeAlloc, baseIterTime, momentumBonusFactor, min_le_right]
  · intro inst tG st inp rest n h
    cases hs : iterStep inst tG st inp with
    | inl st2 => simp [runLoop, hs]
    | inr reason =>
      simp only [runLoop, hs]
      rw [if_neg (not_le.mpr h)]
      rfl
  · intro inst tG st inp st2 hstep
    unfold iterStep at hstep
    split_ifs at hstep with h1 h2 h3 h4
    injection hstep with hst
    subst hst
    simp [decide_eq_true_iff]

/-- C5 witness: each conjunct applied at concrete data. -/
theorem momentum_policy_witness :
    (iterTimeAlloc true 100 =
        min (baseIterTime * (if true then momentumBonusFactor else 1)) 100 ∧
      iterTimeAlloc true 100 ≤ 100) ∧
    (runLoop wInst 600 [wInput] 30 wState).allocs.head? =
      some (iterTimeAlloc wState.hasMomentum (600 - wInput.elapsed)) ∧
    (wStateAfter.hasMomentum = true ↔
      wState.currentR * significantImprovementThreshold ≤ candidateRatio wInst wInput.resp) :=
  ⟨momentum_policy.1 true 100,
   momentum_policy.2.1 wInst 600 wState wInput [] 29 (by norm_num [wInput]),
   momentum_policy.2.2 wInst 600 wState wInput wStateAfter (by
     unfold iterStep
     norm_num [wInst, wState, wInput, wStateAfter, candidateRatio, sumUnits, getOrder,
       CONVERGENCE_TOL, significantImprovementThreshold])⟩

/-- The loop can only run down its iteration budget. -/
theorem runLoop_iters_le (inst : Instance) (tG : ℚ) :
    ∀ (inputs : List IterInput) (n : ℕ) (st : DriverState),
      (runLoop inst tG inputs n st).iters ≤ n := by
  intro inputs
  induction inputs with
  | nil => intro n st; cases n <;> simp [runLoop]
  | cons inp rest ih =>
    intro n st
    cases n with
    | zero => simp [runLoop]
    | succ n =>
      cases hs : iterStep inst tG st inp with
      | inl st2 =>
        simp only [runLoop, hs]
        exact Nat.succ_le_succ (ih n st2)
      | inr reason => simp [runLoop, hs]

/-- C7: a driver run enters at most `MAX_ITERATIONS` iterations, and an
iteration whose remaining global time is at or below the 5-second
safety margin stops immediately as time-exhausted. -/
theorem iteration_loop_bounded :
    (∀ (inst : Instance) (tG : ℚ) (inputs : List IterInput),
      (driverRun inst tG inputs).iters ≤ MAX_ITERATIONS) ∧
    (∀ (inst : Instance) (tG : ℚ) (st : DriverState) (inp : IterInput),
      tG - inp.elapsed ≤ 5 →
      iterStep inst tG st inp = Sum.inr StopReason.timeExhausted) := by
  constructor
  · intro inst tG inputs
    unfold driverRun
    exact runLoop_iters_le inst tG inputs MAX_ITERATIONS _
  · intro inst tG st inp h
    unfold iterStep
    rw [if_pos h]

/-- C7 witness: a concrete run stays within the bound and a concrete
short-on-time iteration stops as time-exhausted. -/
theorem iteration_loop_bounded_witness :
    (driverRun wInst 600 [wInput]).iters ≤ MAX_ITERATIONS ∧
    iterStep wInst 3 wState wInput = Sum.inr StopReason.timeExhausted :=
  ⟨iteration_loop_bounded.1 wInst 600 [wInput],
   iteration_loop_bounded.2 wInst 3 wState wInput (by norm_num [wInput])⟩

/-- Facts carried by a continuing iteration: the new register equals the
new current ratio, and the promotion was a strict tolerance-exceeding
improvement over the incoming current ratio. -/
theorem iterStep_inl_facts (inst : Instance) (tG : ℚ) (st : DriverState)
    (inp : IterInput) (st2 : DriverState)
    (hs : iterStep inst tG st inp = Sum.inl st2) :
    st2.best.objective = st2.currentR ∧
    st.currentR + CONVERGENCE_TOL < st2.best.objective ∧
    st2.best.total_units = sumUnits inst inp.resp.orders ∧
    inp.resp.aisles.isEmpty = false := by
  unfold iterStep at hs
  split_ifs at hs with h1 h2 h3 h4
  injection hs with hst
  subst hst
  exact ⟨rfl, h4, rfl, Bool.eq_false_iff.mpr h3⟩

/-- Adjacent relation of C4: the register objective never decreases, and
a changed register means a strictly more than tolerance better objective. -/
def registerChain (a b : DriverState) : Prop :=
  a.best.objective ≤ b.best.objective ∧
  (b.best ≠ a.best → a.best.objective + CONVERGENCE_TOL < b.best.objective)

/-- Every visited loop state is the head of its remaining trace. -/
theorem runLoop_trace_head (inst : Instance) (tG : ℚ) :
    ∀ (inputs : List IterInput) (n : ℕ) (st : DriverState),
      (runLoop inst tG inputs n st).trace.head? = some st := by
  intro inputs n st
  cases inputs with
  | nil => cases n <;> rfl
  | cons inp rest =>
    cases n with
    | zero => rfl
    | succ n =>
      cases hs : iterStep inst tG st inp with
      | inl st2 => simp [runLoop, hs]
      | inr reason => simp [runLoop, hs]

/-- Register monotonicity along the whole loop, given the register/ratio
agreement invariant at entry. -/
theorem runLoop_register_chain (inst : Instance) (tG : ℚ) :
    ∀ (inputs : List IterInput) (n : ℕ) (st : DriverState),
      st.best.objective = st.currentR →
      List.Chain' registerChain (runLoop inst tG inputs n st).trace ∧
      (∀ s ∈ (runLoop inst tG inputs n st).trace, s.best.objective = s.currentR) := by
  intro inputs
  induction inputs with
  | nil =>
    intro n st h
    cases n <;>
      exact ⟨List.chain'_singleton st, by intro s hsm; rw [List.mem_singleton.mp hsm]; exact h⟩
  | cons inp rest ih =>
    intro n st h
    cases n with
    | zero =>
      exact ⟨List.chain'_singleton st, by intro s hsm; rw [List.mem_singleton.mp hsm]; exact h⟩
    | succ n =>
      cases hs : iterStep inst tG st inp with
      | inr reason =>
        simp only [runLoop, hs]
        exact ⟨List.chain'_singleton st, by intro s hsm; rw [List.mem_singleton.mp hsm]; exact h⟩
      | inl st2 =>
        simp only [runLoop, hs]
        obtain ⟨hinv2, himp, _, _⟩ := iterStep_inl_facts inst tG st inp st2 hs
        have hrec := ih n st2 hinv2
        constructor
        · rw [List.chain'_cons']
          refine ⟨?_, hrec.1⟩
          intro b hb
          rw [runLoop_trace_head inst tG rest n st2] at hb
          rw [Option.mem_some_iff] at hb
          subst hb
          have hlt : st.best.objective + CONVERGENCE_TOL < st2.best.objective := by
            rw [h]; exact himp
          constructor
          · have htol : (0 : ℚ) < CONVERGENCE_TOL := by norm_num [CONVERGENCE_TOL]
            linarith
          · intro _; exact hlt
        · intro s hsm
          rcases List.mem_cons.mp hsm with hseq | hsmem
          · rw [hseq]; exact h
          · exact hrec.2 s hsmem

/-- The seeder leaves the register objective equal to the returned ratio
on every path. -/
theorem seed_reg_agree (inst : Instance) :
    ((generateInitialSolution inst initialBest).2).objective =
      (generateInitialSolution inst initialBest).1.1 := by
  unfold generateInitialSolution
  split_ifs <;> rfl

/-- C4: along a driver run the Best-Solution Register objective is
non-decreasing, and the register content changes only on a strict,
tolerance-exceeding improvement of the ratio. -/
theorem register_monotone (inst : Instance) (tG : ℚ) (inputs : List IterInput) :
    List.Chain' registerChain (driverRun inst tG inputs).trace ∧
    (∀ s ∈ (driverRun inst tG inputs).trace, s.best.objective = s.currentR) := by
  unfold driverRun
  exact runLoop_register_chain inst tG inputs MAX_ITERATIONS _ (seed_reg_agree inst)

/-- Greedy-accumulation invariant: either nothing was ever accepted, or
the running unit total respects `max_wave_size` (each acceptance is
guarded by `current_units + order.total_units <= max_wave_size`). -/
theorem greedy_fold_inv (inst : Instance) :
    ∀ (l : List (ℚ × Order)) (acc : List ℕ × ℤ),
      ((acc.1 = [] ∧ acc.2 = 0) ∨ acc.2 ≤ inst.max_wave_size) →
      (((l.foldl
          (fun acc so =>
            if acc.2 + so.2.total_units ≤ inst.max_wave_size then
              (setInsert acc.1 so.2.id, acc.2 + so.2.total_units)
            else acc) acc).1 = [] ∧
        (l.foldl
          (fun acc so =>
            if acc.2 + so.2.total_units ≤ inst.max_wave_size then
              (setInsert acc.1 so.2.id, acc.2 + so.2.total_units)
            else acc) acc).2 = 0) ∨
       (l.foldl
          (fun acc so =>
            if acc.2 + so.2.total_units ≤ inst.max_wave_size then
              (setInsert acc.1 so.2.id, acc.2 + so.2.total_units)
            else acc) acc).2 ≤ inst.max_wave_size) := by
  intro l
  induction l with
  | nil => intro acc h; exact h
  | cons so rest ih =>
    intro acc h
    simp only [List.foldl_cons]
    by_cases hacc : acc.2 + so.2.total_units ≤ inst.max_wave_size
    · rw [if_pos hacc]
      exact ih _ (Or.inr hacc)
    · rw [if_neg hacc]
      exact ih _ h

/-- If the greedy phase accepted at least one order, its unit total is
at most `max_wave_size`. -/
theorem seedUnits_le_max (inst : Instance) (h : seedSelected inst ≠ []) :
    seedUnits inst ≤ inst.max_wave_size := by
  have hinv := greedy_fold_inv inst (sortScoresDesc (orderScores inst)) ([], 0)
    (Or.inl ⟨rfl, rfl⟩)
  unfold seedSelected greedyAccum at h
  unfold seedUnits greedyAccum
  rcases hinv with ⟨h1, _⟩ | h2
  · exact absurd h1 h
  · exact h2

/-- An empty greedy selection yields an empty aisle union. -/
theorem seedAisleUnion_of_nil (inst : Instance) (h : seedSelected inst = []) :
    seedAisleUnion inst = [] := by
  unfold seedAisleUnion
  rw [h]
  rfl

/-- The seeder either leaves the register at the initial value or
promotes a seed whose units are inside the wave-size band. -/
theorem seed_wave_bounds (inst : Instance) :
    (generateInitialSolution inst initialBest).2 = initialBest ∨
    (inst.min_wave_size ≤ ((generateInitialSolution inst initialBest).2).total_units ∧
      ((generateInitialSolution inst initialBest).2).total_units ≤ inst.max_wave_size) := by
  unfold generateInitialSolution
  split_ifs with h1 h2 h3
  · exact Or.inl rfl
  · exact Or.inl rfl
  · refine Or.inr ⟨not_lt.mp h1, ?_⟩
    refine seedUnits_le_max inst ?_
    intro hnil
    rw [seedAisleUnion_of_nil inst hnil] at h2
    exact h2 rfl
  · exact Or.inl rfl

/-- C6 hypothesis: the external oracle only returns wave-size-feasible
selections (it solves a model carrying both wave-size constraints). -/
def oracleFeasible (inst : Instance) (inputs : List IterInput) : Prop :=
  ∀ inp ∈ inputs, inp.resp.aisles.isEmpty = false →
    inst.min_wave_size ≤ sumUnits inst inp.resp.orders ∧
    sumUnits inst inp.resp.orders ≤ inst.max_wave_size

/-- Wave-size register invariant. -/
def waveInv (inst : Instance) (s : DriverState) : Prop :=
  s.best = initialBest ∨
  (inst.min_wave_size ≤ s.best.total_units ∧ s.best.total_units ≤ inst.max_wave_size)

/-- The loop preserves the wave-size register invariant when the oracle
is wave-size-feasible. -/
theorem runLoop_waveInv (inst : Instance) (tG : ℚ) :
    ∀ (inputs : List IterInput) (n : ℕ) (st : DriverState),
      oracleFeasible inst inputs → waveInv inst st →
      waveInv inst (runLoop inst tG inputs n st).final := by
  intro inputs
  induction inputs with
  | nil => intro n st _ h; cases n <;> exact h
  | cons inp rest ih =>
    intro n st hfeas h
    cases n with
    | zero => exact h
    | succ n =>
      cases hs : iterStep inst tG st inp with
      | inr reason => simp only [runLoop, hs]; exact h
      | inl st2 =>
        simp only [runLoop, hs]
        refine ih n st2 (fun i hi => hfeas i (List.mem_cons_of_mem inp hi)) ?_
        obtain ⟨_, _, hunits, hne⟩ := iterStep_inl_facts inst tG st inp st2 hs
        have hb := hfeas inp (List.mem_cons_self inp rest) hne
        rw [← hunits] at hb
        exact Or.inr hb

/-- C6: if the oracle returns only wave-size-feasible selections, a
non-initial final register holds a solution whose total units are inside
`[min_wave_size, max_wave_size]`; moreover every subproblem the driver
builds carries both wave-size constraints. -/
theorem final_wave_size_in_bounds (inst : Instance) (tG : ℚ) (inputs : List IterInput)
    (hfeas : oracleFeasible inst inputs) :
    ((driverRun inst tG inputs).final.best ≠ initialBest →
      inst.min_wave_size ≤ (driverRun inst tG inputs).final.best.total_units ∧
      (driverRun inst tG inputs).final.best.total_units ≤ inst.max_wave_size) ∧
    (∀ R : ℚ, (buildSubproblem inst R).minConstr = inst.min_wave_size ∧
      (buildSubproblem inst R).maxConstr = inst.max_wave_size) := by
  constructor
  · intro hne
    have hinv : waveInv inst (driverRun inst tG inputs).final := by
      unfold driverRun
      refine runLoop_waveInv inst tG inputs MAX_ITERATIONS _ hfeas ?_
      have hseed := seed_wave_bounds inst
      rcases hseed with hl | hr
      · exact Or.inl hl
      · exact Or.inr hr
    rcases hinv with hl | hr
    · exact absurd hl hne
    · exact hr
  · intro R
    exact ⟨rfl, rfl⟩

/-- The driver state after seeding `wInst`. -/
def wSeedState : DriverState :=
  { currentR := 5, lastOrders := [0], lastAisles := [0],
    best := { orders := [0], aisles := [0], objective := 5, total_units := 5 },
    hasMomentum := false }

/-- C6 witness: a concrete run with a wave-size-feasible oracle ends
with a non-initial register inside the band. -/
theorem final_wave_size_in_bounds_witness :
    wInst.min_wave_size ≤ (driverRun wInst 600 [wInput]).final.best.total_units ∧
    (driverRun wInst 600 [wInput]).final.best.total_units ≤ wInst.max_wave_size := by
  have hfeas : oracleFeasible wInst [wInput] := by
    intro i hi hne
    rw [List.mem_singleton.mp hi]
    constructor <;> decide
  have hseed : generateInitialSolution wInst initialBest =
      ((5, [0], [0]), { orders := [0], aisles := [0], objective := 5, total_units := 5 }) := by
    have hsel : seedSelected wInst = [0] := by decide
    have hunits : seedUnits wInst = 5 := by decide
    have hais : seedAisleUnion wInst = [0] := by decide
    have hok : seedInventoryOk wInst = true := by decide
    unfold generateInitialSolution
    rw [hsel, hunits, hais, hok]
    norm_num [wInst]
  have hstep : iterStep wInst 600 wSeedState wInput = Sum.inr StopReason.stagnated := by
    unfold iterStep
    norm_num [wSeedState, wInput, wInst, CONVERGENCE_TOL, candidateRatio, sumUnits, getOrder]
  have hfinal : (driverRun wInst 600 [wInput]).final = wSeedState := by
    simp only [driverRun]
    rw [hseed]
    show (runLoop wInst 600 [wInput] MAX_ITERATIONS wSeedState).final = wSeedState
    simp only [MAX_ITERATIONS, runLoop, hstep]
  have hne : (driverRun wInst 600 [wInput]).final.best ≠ initialBest := by
    rw [hfinal]
    decide
  exact (final_wave_size_in_bounds wInst 600 [wInput] hfeas).1 hne

/-- Does a parse result hold an error (Python: an exception escaped)? -/
def isError {α : Type} : Except PErr α → Bool
  | .error _ => true
  | .ok _ => false

/-- Spec condition: malformed header (missing first line or a token
count different from three). -/
def headerBadB (lines : List (List ℤ)) : Bool :=
  lines.isEmpty || (lines.headD []).length != 3

/-- Declared order count, read from the header. -/
def specNumOrders (lines : List (List ℤ)) : ℕ :=
  ((lines.headD []).headD 0).toNat

/-- Declared aisle count, read from the header. -/
def specNumAisles (lines : List (List ℤ)) : ℕ :=
  ((lines.headD []).getD 2 0).toNat

/-- An order-section line at position `p` that makes `parse` raise:
missing (premature EOF), empty (`parts[0]` fails), or payload length
different from twice the declared count. -/
def badOrderLineAt (lines : List (List ℤ)) (p : ℕ) : Bool :=
  match lines[p]? with
  | none => true
  | some [] => true
  | some (k :: rest) => (rest.length : ℤ) != 2 * k

/-- An aisle-section line the reader consumes as an aisle record. -/
def goodAisleLineAt (lines : List (List ℤ)) (p : ℕ) : Bool :=
  match lines[p]? with
  | some (l :: rest) => (rest.length : ℤ) == 2 * l
  | _ => false

/-- An empty (token-free) line at position `p`. -/
def emptyLineAt (lines : List (List ℤ)) (p : ℕ) : Bool :=
  lines[p]? == some []

/-- Some declared order record is missing, empty, or mismatched. -/
def orderSectionErrB (lines : List (List ℤ)) : Bool :=
  (List.range (specNumOrders lines)).any (fun i => badOrderLineAt lines (1 + i))

/-- The aisle reader reaches an empty line: some declared aisle position
is an empty line and every earlier aisle line was consumed normally. -/
def aisleSectionErrB (lines : List (List ℤ)) : Bool :=
  (List.range (specNumAisles lines)).any (fun j =>
    (List.range j).all (fun j2 => goodAisleLineAt lines (1 + specNumOrders lines + j2)) &&
    emptyLineAt lines (1 + specNumOrders lines + j))

/-- The claim's second condition, verbatim: an order record whose
declared item count does not match its payload length. -/
def specOrderCountMismatchB (lines : List (List ℤ)) : Bool :=
  (List.range (specNumOrders lines)).any (fun i =>
    match lines[1 + i]? with
    | some (k :: rest) => (rest.length : ℤ) != 2 * k
    | _ => false)

/-- The claim's third condition, verbatim: the file ends before all
declared order records are read. -/
def specOrderEofB (lines : List (List ℤ)) : Bool :=
  decide (lines.length < 1 + specNumOrders lines)

/-- C8 counterexample: the file `1 1 1 / 1 0 2 / (empty line)` has a
well-formed header, a complete and well-formed order section, yet
`parse` raises (an uncaught `IndexError` from `parts[0]` on the empty
aisle line) instead of tolerating the aisle section's end — so the
claim's "exactly when" characterization is false. -/
theorem parse_error_beyond_spec_conditions :
    isError (parseInstance [[1, 1, 1], [1, 0, 2], []]) = true ∧
    headerBadB [[1, 1, 1], [1, 0, 2], []] = false ∧
    specOrderCountMismatchB [[1, 1, 1], [1, 0, 2], []] = false ∧
    specOrderEofB [[1, 1, 1], [1, 0, 2], []] = false := by
  decide

/-- The order reader fails exactly on a bad order line among the `n`
positions it reads. -/
theorem isError_readOrders (lines : List (List ℤ)) :
    ∀ (n idx oid : ℕ),
      isError (readOrders lines idx oid n) =
        (List.range n).any (fun i => badOrderLineAt lines (idx + i)) := by
  intro n
  induction n with
  | zero => intro idx oid; rfl
  | succ n ih =>
    intro idx oid
    rw [List.range_succ_eq_map, List.any_cons, List.any_map]
    cases hl : lines[idx]? with
    | none =>
      have hb : badOrderLineAt lines (idx + 0) = true := by
        simp only [badOrderLineAt, Nat.add_zero, hl]
      rw [hb, Bool.true_or]
      simp only [readOrders, hl, isError]
    | some parts =>
      cases parts with
      | nil =>
        have hb : badOrderLineAt lines (idx + 0) = true := by
          simp only [badOrderLineAt, Nat.add_zero, hl]
        rw [hb, Bool.true_or]
        simp only [readOrders, hl, isError]
      | cons k rest =>
        by_cases hk : ((rest.length : ℤ)) ≠ 2 * k
        · have hb : badOrderLineAt lines (idx + 0) = true := by
            simp only [badOrderLineAt, Nat.add_zero, hl]
            exact bne_iff_ne.mpr hk
          rw [hb, Bool.true_or]
          simp only [readOrders, hl, if_pos hk, isError]
        · have hb : badOrderLineAt lines (idx + 0) = false := by
            simp only [badOrderLineAt, Nat.add_zero, hl]
            rw [bne_eq_false_iff_eq]
            exact not_ne_iff.mp hk
          rw [hb, Bool.false_or]
          have hrec : isError (readOrders lines idx oid (n + 1)) =
              isError (readOrders lines (idx + 1) (oid + 1) n) := by
            simp only [readOrders, hl, if_neg hk]
            cases hr : readOrders lines (idx + 1) (oid + 1) n with
            | error e => simp [isError]
            | ok p => rcases p with ⟨os, idx2⟩; simp [isError]
          rw [hrec, ih (idx + 1) (oid + 1)]
          congr 1
          funext i
          simp only [Function.comp]
          congr 1
          omega

/-- A successful order read consumes exactly one line per record. -/
theorem readOrders_ok_idx (lines : List (List ℤ)) :
    ∀ (n idx oid : ℕ) (os : List Order) (idx2 : ℕ),
      readOrders lines idx oid n = .ok (os, idx2) → idx2 = idx + n := by
  intro n
  induction n with
  | zero =>
    intro idx oid os idx2 h
    injection h with h2
    rw [Prod.mk.injEq] at h2
    obtain ⟨h3, h4⟩ := h2
    omega
  | succ n ih =>
    intro idx oid os idx2 h
    revert h
    cases hl : lines[idx]? with
    | none => intro h; exact absurd h (by simp [readOrders, hl])
    | some parts =>
      cases parts with
      | nil => intro h; exact absurd h (by simp [readOrders, hl])
      | cons k rest =>
        by_cases hk : ((rest.length : ℤ)) ≠ 2 * k
        · intro h; exact absurd h (by simp [readOrders, hl, if_pos hk])
        · cases hr : readOrders lines (idx + 1) (oid + 1) n with
          | error e => intro h; exact absurd h (by simp [readOrders, hl, if_neg hk, hr])
          | ok p =>
            rcases p with ⟨os2, idx3⟩
            intro h
            have h3 : idx3 = idx + 1 + n := ih (idx + 1) (oid + 1) os2 idx3 hr
            simp only [readOrders, hl, if_neg hk, hr] at h
            injection h with h2
            rw [Prod.mk.injEq] at h2
            omega

/-- The aisle reader fails exactly when it reaches an empty line after a
run of normally consumed aisle records; end of file and mismatched
lines merely stop it. -/
theorem isError_readAisles (lines : List (List ℤ)) :
    ∀ (n idx aid : ℕ),
      isError (readAisles lines idx aid n) =
        (List.range n).any (fun j =>
          (List.range j).all (fun j2 => goodAisleLineAt lines (idx + j2)) &&
          emptyLineAt lines (idx + j)) := by
  intro n
  induction n with
  | zero => intro idx aid; rfl
  | succ n ih =>
    intro idx aid
    cases hl : lines[idx]? with
    | none =>
      have hlhs : isError (readAisles lines idx aid (n + 1)) = false := by
        simp only [readAisles, hl, isError]
      rw [hlhs]
      symm
      rw [List.any_eq_false]
      intro j hj hc
      rw [Bool.and_eq_true] at hc
      have hempty := hc.2
      rw [emptyLineAt, beq_iff_eq] at hempty
      have hnone : lines[idx + j]? = none := by
        rw [List.getElem?_eq_none_iff] at hl ⊢
        omega
      rw [hnone] at hempty
      exact Option.noConfusion hempty
    | some parts =>
      cases parts with
      | nil =>
        have hlhs : isError (readAisles lines idx aid (n + 1)) = true := by
          simp only [readAisles, hl, isError]
        rw [hlhs]
        symm
        rw [List.any_eq_true]
        refine ⟨0, List.mem_range.mpr (Nat.succ_pos n), ?_⟩
        simp [emptyLineAt, hl]
      | cons l rest =>
        by_cases hk : ((rest.length : ℤ)) ≠ 2 * l
        · have hlhs : isError (readAisles lines idx aid (n + 1)) = false := by
            simp only [readAisles, hl, if_pos hk, isError]
          rw [hlhs]
          symm
          rw [List.any_eq_false]
          intro j hj hc
          rw [Bool.and_eq_true] at hc
          cases j with
          | zero =>
            have hempty := hc.2
            rw [emptyLineAt, beq_iff_eq, Nat.add_zero, hl] at hempty
            simp at hempty
          | succ j2 =>
            have hgood := List.all_eq_true.mp hc.1 0
              (List.mem_range.mpr (Nat.succ_pos j2))
            rw [goodAisleLineAt, Nat.add_zero, hl] at hgood
            rw [beq_iff_eq] at hgood
            exact hk hgood
        · have hlhs : isError (readAisles lines idx aid (n + 1)) =
              isError (readAisles lines (idx + 1) (aid + 1) n) := by
            simp only [readAisles, hl, if_neg hk]
            cases hr : readAisles lines (idx + 1) (aid + 1) n with
            | error e => simp [isError]
            | ok p => rcases p with ⟨as, idx2⟩; simp [isError]
          rw [hlhs, ih (idx + 1) (aid + 1)]
          rw [List.range_succ_eq_map, List.any_cons, List.any_map]
          have h0 : ((List.range 0).all (fun j2 => goodAisleLineAt lines (idx + j2)) &&
              emptyLineAt lines (idx + 0)) = false := by
            rw [emptyLineAt, Nat.add_zero, hl]
            simp
          rw [h0, Bool.false_or]
          congr 1
          funext j
          simp only [Function.comp]
          rw [List.range_succ_eq_map, List.all_cons, List.all_map]
          have hg0 : goodAisleLineAt lines (idx + 0) = true := by
            rw [goodAisleLineAt, Nat.add_zero, hl, beq_iff_eq]
            exact not_ne_iff.mp hk
          rw [hg0, Bool.true_and]
          congr 1
          · congr 1
            funext j2
            simp only [Function.comp]
            congr 1
            omega
          · congr 1
            omega

/-- C8 (amended): `parse` produces no instance exactly when the header
is malformed, or some declared order record is missing (premature EOF),
empty, or has a count/payload mismatch, or the aisle reader runs into an
empty line; genuine truncation of the aisle section and mismatched aisle
lines are tolerated and merely stop aisle reading early. -/
theorem parse_error_characterization (lines : List (List ℤ)) :
    isError (parseInstance lines) =
      (headerBadB lines || orderSectionErrB lines || aisleSectionErrB lines) := by
  have degenerate : ∀ hd tl, headerBadB (hd :: tl) = true →
      isError (parseInstance (hd :: tl)) =
        (headerBadB (hd :: tl) || orderSectionErrB (hd :: tl) || aisleSectionErrB (hd :: tl)) := by
    intro hd tl hbad
    rw [hbad, Bool.true_or]
    cases hd with
    | nil =>
      simp only [parseInstance, List.getElem?_cons_zero, isError]
      simp
    | cons a h1 =>
      cases h1 with
      | nil =>
        simp only [parseInstance, List.getElem?_cons_zero, isError]
        simp
      | cons b h2 =>
        cases h2 with
        | nil =>
          simp only [parseInstance, List.getElem?_cons_zero, isError]
          simp
        | cons c h3 =>
          cases h3 with
          | cons d h4 =>
            simp only [parseInstance, List.getElem?_cons_zero, isError]
            simp
          | nil => simp [headerBadB] at hbad
  cases lines with
  | nil => rfl
  | cons header tail =>
    cases header with
    | nil => exact degenerate [] tail (by simp [headerBadB])
    | cons a h1 =>
      cases h1 with
      | nil => exact degenerate [a] tail (by simp [headerBadB])
      | cons b h2 =>
        cases h2 with
        | nil => exact degenerate [a, b] tail (by simp [headerBadB])
        | cons c h3 =>
          cases h3 with
          | cons d h4 => exact degenerate (a :: b :: c :: d :: h4) tail (by simp [headerBadB])
          | nil =>
            have hB : headerBadB ([a, b, c] :: tail) = false := rfl
            rw [hB, Bool.false_or]
            cases hro : readOrders ([a, b, c] :: tail) 1 0 a.toNat with
            | error e =>
              have hOrd : orderSectionErrB ([a, b, c] :: tail) = true := by
                have hlem := isError_readOrders ([a, b, c] :: tail) a.toNat 1 0
                rw [hro] at hlem
                exact hlem.symm
              rw [hOrd, Bool.true_or]
              simp only [parseInstance, List.getElem?_cons_zero, hro, isError]
            | ok p =>
              rcases p with ⟨os, idx⟩
              have hidx : idx = 1 + a.toNat :=
                readOrders_ok_idx ([a, b, c] :: tail) a.toNat 1 0 os idx hro
              have hOrd : orderSectionErrB ([a, b, c] :: tail) = false := by
                have hlem := isError_readOrders ([a, b, c] :: tail) a.toNat 1 0
                rw [hro] at hlem
                exact hlem.symm
              rw [hOrd, Bool.false_or]
              subst hidx
              cases hra : readAisles ([a, b, c] :: tail) (1 + a.toNat) 0 c.toNat with
              | error e =>
                have hAis : aisleSectionErrB ([a, b, c] :: tail) = true := by
                  have hlem := isError_readAisles ([a, b, c] :: tail) c.toNat (1 + a.toNat) 0
                  rw [hra] at hlem
                  exact hlem.symm
                rw [hAis]
                simp only [parseInstance, List.getElem?_cons_zero, hro, hra, isError]
              | ok q =>
                rcases q with ⟨as, idx2⟩
                have hAis : aisleSectionErrB ([a, b, c] :: tail) = false := by
                  have hlem := isError_readAisles ([a, b, c] :: tail) c.toNat (1 + a.toNat) 0
                  rw [hra] at hlem
                  exact hlem.symm
                rw [hAis]
                simp only [parseInstance, List.getElem?_cons_zero, hro, hra, isError]

/-- Keys after a Python dict insertion: unchanged for an existing key,
appended for a fresh one. -/
theorem dictInsert_keys (d : List (ℤ × ℤ)) (k v : ℤ) :
    (dictInsert d k v).map Prod.fst =
      if k ∈ d.map Prod.fst then d.map Prod.fst else d.map Prod.fst ++ [k] := by
  induction d with
  | nil => simp [dictInsert]
  | cons kv0 rest ih =>
    rcases kv0 with ⟨k0, v0⟩
    by_cases hk : k0 = k
    · subst hk
      simp [dictInsert]
    · simp only [dictInsert, if_neg hk, List.map_cons, ih]
      have hmem : k ∈ k0 :: rest.map Prod.fst ↔ k ∈ rest.map Prod.fst := by
        constructor
        · intro h
          rcases List.mem_cons.mp h with h0 | h1
          · exact absurd h0.symm hk
          · exact h1
        · exact List.mem_cons_of_mem k0
      by_cases hm : k ∈ rest.map Prod.fst
      · rw [if_pos hm, if_pos (hmem.mpr hm)]
      · rw [if_neg hm, if_neg (fun hc => hm (hmem.mp hc))]
        simp

/-- Python dict insertion keeps the keys duplicate-free. -/
theorem dictInsert_keys_nodup (d : List (ℤ × ℤ)) (k v : ℤ)
    (h : (d.map Prod.fst).Nodup) : ((dictInsert d k v).map Prod.fst).Nodup := by
  rw [dictInsert_keys]
  by_cases hm : k ∈ d.map Prod.fst
  · rw [if_pos hm]; exact h
  · rw [if_neg hm]
    rw [← List.concat_eq_append]
    exact List.Nodup.concat hm h

/-- Dicts built from pair lists have duplicate-free keys. -/
theorem dictOfPairs_keys_nodup (ps : List (ℤ × ℤ)) :
    ((dictOfPairs ps).map Prod.fst).Nodup := by
  have haux : ∀ (qs : List (ℤ × ℤ)) (d : List (ℤ × ℤ)),
      (d.map Prod.fst).Nodup →
      (((qs.foldl (fun d kv => dictInsert d kv.1 kv.2) d)).map Prod.fst).Nodup := by
    intro qs
    induction qs with
    | nil => intro d h; exact h
    | cons kv rest ih =>
      intro d h
      exact ih (dictInsert d kv.1 kv.2) (dictInsert_keys_nodup d kv.1 kv.2 h)
  exact haux ps [] List.nodup_nil

/-- Looking up the freshly inserted key of the reverse index. -/
theorem ilLookup_ilInsert_self (m : List (ℤ × List ℕ)) (item : ℤ) (aid : ℕ) :
    ilLookup (ilInsert m item aid) item = some (ilLookupD m item ++ [aid]) := by
  induction m with
  | nil => simp [ilInsert, ilLookup, ilLookupD]
  | cons kv rest ih =>
    rcases kv with ⟨k, v⟩
    by_cases hk : k = item
    · subst hk
      simp [ilInsert, ilLookup, ilLookupD, List.find?_cons]
    · have hbeq : (k == item) = false := beq_eq_false_iff_ne.mpr hk
      simp only [ilInsert, if_neg hk, ilLookup, List.find?_cons, hbeq]
      rw [show ilLookupD ((k, v) :: rest) item = ilLookupD rest item by
        simp [ilLookupD, ilLookup, List.find?_cons, hbeq]]
      exact ih

/-- Reverse-index insertion does not disturb other keys. -/
theorem ilLookup_ilInsert_ne (m : List (ℤ × List ℕ)) (item : ℤ) (aid : ℕ)
    (k : ℤ) (h : k ≠ item) :
    ilLookup (ilInsert m item aid) k = ilLookup m k := by
  induction m with
  | nil =>
    have hbeq : (item == k) = false := beq_eq_false_iff_ne.mpr (fun hc => h hc.symm)
    simp [ilInsert, ilLookup, List.find?_cons, hbeq]
  | cons kv rest ih =>
    rcases kv with ⟨k0, v⟩
    by_cases hk0 : k0 = item
    · subst hk0
      have hbeq : (k0 == k) = false := beq_eq_false_iff_ne.mpr (fun hc => h hc.symm)
      simp [ilInsert, ilLookup, List.find?_cons, hbeq]
    · cases hbeq : (k0 == k) with
      | true =>
        simp [ilInsert, if_neg hk0, ilLookup, List.find?_cons, hbeq]
      | false =>
        simp only [ilInsert, if_neg hk0, ilLookup, List.find?_cons, hbeq]
        exact ih

/-- Folding an inventory whose keys avoid `item` leaves `item`'s entry
untouched. -/
theorem foldl_ilInsert_lookup_notmem (aid : ℕ) :
    ∀ (ps : List (ℤ × ℤ)) (m : List (ℤ × List ℕ)) (item : ℤ),
      item ∉ ps.map Prod.fst →
      ilLookup (ps.foldl (fun m kv => ilInsert m kv.1 aid) m) item = ilLookup m item := by
  intro ps
  induction ps with
  | nil => intro m item _; rfl
  | cons kv rest ih =>
    intro m item hmem
    rcases kv with ⟨k, v⟩
    have hne : item ≠ k := fun hc => hmem (by rw [List.map_cons, hc]; exact List.mem_cons_self k _)
    have hrest : item ∉ rest.map Prod.fst := fun hc => hmem (List.mem_cons_of_mem k hc)
    simp only [List.foldl_cons]
    rw [ih (ilInsert m k aid) item hrest]
    exact ilLookup_ilInsert_ne m k aid item hne

/-- Folding one inventory with distinct keys appends `aid` exactly once
to the mentioned items and leaves the rest untouched. -/
theorem foldl_ilInsert_lookup (aid : ℕ) :
    ∀ (ps : List (ℤ × ℤ)) (m : List (ℤ × List ℕ)) (item : ℤ),
      (ps.map Prod.fst).Nodup →
      ilLookup (ps.foldl (fun m kv => ilInsert m kv.1 aid) m) item =
        if item ∈ ps.map Prod.fst then some (ilLookupD m item ++ [aid])
        else ilLookup m item := by
  intro ps
  induction ps with
  | nil => intro m item _; simp
  | cons kv rest ih =>
    intro m item hnd
    rcases kv with ⟨k, v⟩
    rw [List.map_cons] at hnd
    have hknotin : k ∉ rest.map Prod.fst := (List.nodup_cons.mp hnd).1
    have hndrest : (rest.map Prod.fst).Nodup := (List.nodup_cons.mp hnd).2
    simp only [List.foldl_cons]
    by_cases hik : item = k
    · subst hik
      rw [foldl_ilInsert_lookup_notmem aid rest (ilInsert m item aid) item hknotin]
      rw [ilLookup_ilInsert_self m item aid]
      rw [if_pos (by rw [List.map_cons]; exact List.mem_cons_self item _)]
    · rw [ih (ilInsert m k aid) item hndrest]
      have hDeq : ilLookupD (ilInsert m k aid) item = ilLookupD m item := by
        unfold ilLookupD
        rw [ilLookup_ilInsert_ne m k aid item hik]
      have hmemiff : item ∈ ((k, v) :: rest).map Prod.fst ↔ item ∈ rest.map Prod.fst := by
        rw [List.map_cons]
        constructor
        · intro h
          rcases List.mem_cons.mp h with h0 | h1
          · exact absurd h0 hik
          · exact h1
        · exact List.mem_cons_of_mem k
      by_cases hm : item ∈ rest.map Prod.fst
      · rw [if_pos hm, if_pos (hmemiff.mpr hm), hDeq]
      · rw [if_neg hm, if_neg (fun hc => hm (hmemiff.mp hc))]
        exact ilLookup_ilInsert_ne m k aid item hik

/-- Effect of registering one aisle in the reverse index. -/
theorem ilLookup_addAisle (m : List (ℤ × List ℕ)) (a : Aisle) (item : ℤ)
    (h : (a.inventory.map Prod.fst).Nodup) :
    ilLookup (addAisleLocations m a) item =
      if item ∈ a.inventory.map Prod.fst then some (ilLookupD m item ++ [a.id])
      else ilLookup m item :=
  foldl_ilInsert_lookup a.id a.inventory m item h

/-- The aisle ids mentioning an item, in aisle-list order. -/
def mentioningAisles (aisles : List Aisle) (item : ℤ) : List ℕ :=
  (aisles.filter (fun a => dictMem a.inventory item)).map (fun a => a.id)

/-- `dictMem` agrees with key-list membership. -/
theorem dictMem_iff (d : List (ℤ × ℤ)) (k : ℤ) :
    dictMem d k = true ↔ k ∈ d.map Prod.fst := by
  unfold dictMem
  rw [List.any_eq_true]
  constructor
  · rintro ⟨kv, hkv, hbeq⟩
    rw [beq_iff_eq] at hbeq
    exact List.mem_map.mpr ⟨kv, hkv, hbeq⟩
  · intro h
    rcases List.mem_map.mp h with ⟨kv, hkv, heq⟩
    exact ⟨kv, hkv, beq_iff_eq.mpr heq⟩

/-- Characterization of the built reverse index over any accumulator. -/
theorem ilLookup_build_aux :
    ∀ (aisles : List Aisle) (m : List (ℤ × List ℕ)) (item : ℤ),
      (∀ a ∈ aisles, (a.inventory.map Prod.fst).Nodup) →
      ilLookup (aisles.foldl addAisleLocations m) item =
        if mentioningAisles aisles item = [] then ilLookup m item
        else some (ilLookupD m item ++ mentioningAisles aisles item) := by
  intro aisles
  induction aisles with
  | nil => intro m item _; simp [mentioningAisles]
  | cons a rest ih =>
    intro m item hnd
    have hnda := hnd a (List.mem_cons_self a rest)
    have hndrest : ∀ b ∈ rest, (b.inventory.map Prod.fst).Nodup :=
      fun b hb => hnd b (List.mem_cons_of_mem a hb)
    simp only [List.foldl_cons]
    rw [ih (addAisleLocations m a) item hndrest]
    by_cases hmem : dictMem a.inventory item = true
    · have hmm : item ∈ a.inventory.map Prod.fst := (dictMem_iff _ _).mp hmem
      have hmention : mentioningAisles (a :: rest) item = a.id :: mentioningAisles rest item := by
        unfold mentioningAisles
        simp [List.filter_cons, hmem]
      have hla : ilLookup (addAisleLocations m a) item = some (ilLookupD m item ++ [a.id]) := by
        rw [ilLookup_addAisle m a item hnda, if_pos hmm]
      have hlaD : ilLookupD (addAisleLocations m a) item = ilLookupD m item ++ [a.id] := by
        unfold ilLookupD
        rw [hla]
        rfl
      rw [hmention]
      by_cases hrest : mentioningAisles rest item = []
      · rw [if_pos hrest, hrest, hla, if_neg (List.cons_ne_nil a.id [])]
      · rw [if_neg hrest, if_neg (List.cons_ne_nil a.id _), hlaD]
        rw [List.append_assoc]
        rfl
    · have hmm : item ∉ a.inventory.map Prod.fst :=
        fun hc => hmem ((dictMem_iff _ _).mpr hc)
      have hmention : mentioningAisles (a :: rest) item = mentioningAisles rest item := by
        unfold mentioningAisles
        have hmemf : dictMem a.inventory item = false := Bool.not_eq_true _ |>.mp hmem
        simp [List.filter_cons, hmemf]
      have hla : ilLookup (addAisleLocations m a) item = ilLookup m item := by
        rw [ilLookup_addAisle m a item hnda, if_neg hmm]
      have hlaD : ilLookupD (addAisleLocations m a) item = ilLookupD m item := by
        unfold ilLookupD
        rw [hla]
      rw [hmention, hla, hlaD]

/-- `build_item_locations` holds, for each item, exactly the mentioning
aisle ids in aisle order (and no entry when there are none). -/
theorem ilLookup_build (aisles : List Aisle) (item : ℤ)
    (h : ∀ a ∈ aisles, (a.inventory.map Prod.fst).Nodup) :
    ilLookup (build_item_locations aisles) item =
      if mentioningAisles aisles item = [] then none
      else some (mentioningAisles aisles item) := by
  unfold build_item_locations
  rw [ilLookup_build_aux aisles [] item h]
  rcases hc : mentioningAisles aisles item with _ | ⟨x, xs⟩
  · rfl
  · rfl

/-- Aisle records get the dense consecutive ids the parser assigns. -/
theorem readAisles_ids (lines : List (List ℤ)) :
    ∀ (n idx aid : ℕ) (as : List Aisle) (idx2 : ℕ),
      readAisles lines idx aid n = .ok (as, idx2) →
      as.map Aisle.id = List.range' aid as.length := by
  intro n
  induction n with
  | zero =>
    intro idx aid as idx2 h
    injection h with h2
    rw [Prod.mk.injEq] at h2
    rw [← h2.1]
    rfl
  | succ n ih =>
    intro idx aid as idx2 h
    cases hl : lines[idx]? with
    | none =>
      simp only [readAisles, hl, Except.ok.injEq, Prod.mk.injEq] at h
      rw [← h.1]
      rfl
    | some parts =>
      cases parts with
      | nil =>
        simp only [readAisles, hl] at h
        exact Except.noConfusion h
      | cons l rest =>
        by_cases hk : ((rest.length : ℤ)) ≠ 2 * l
        · simp only [readAisles, hl, if_pos hk, Except.ok.injEq, Prod.mk.injEq] at h
          rw [← h.1]
          rfl
        · cases hr : readAisles lines (idx + 1) (aid + 1) n with
          | error e =>
            simp only [readAisles, hl, if_neg hk, hr] at h
            exact Except.noConfusion h
          | ok p =>
            rcases p with ⟨as2, idx3⟩
            simp only [readAisles, hl, if_neg hk, hr, Except.ok.injEq, Prod.mk.injEq] at h
            rw [← h.1, List.map_cons, List.length_cons]
            rw [ih (idx + 1) (aid + 1) as2 idx3 hr]
            exact (List.range'_succ aid as2.length 1).symm

/-- Every parsed aisle inventory has duplicate-free keys. -/
theorem readAisles_inventory_nodup (lines : List (List ℤ)) :
    ∀ (n idx aid : ℕ) (as : List Aisle) (idx2 : ℕ),
      readAisles lines idx aid n = .ok (as, idx2) →
      ∀ a ∈ as, (a.inventory.map Prod.fst).Nodup := by
  intro n
  induction n with
  | zero =>
    intro idx aid as idx2 h
    injection h with h2
    rw [Prod.mk.injEq] at h2
    rw [← h2.1]
    intro a ha
    exact absurd ha (List.not_mem_nil a)
  | succ n ih =>
    intro idx aid as idx2 h
    cases hl : lines[idx]? with
    | none =>
      simp only [readAisles, hl, Except.ok.injEq, Prod.mk.injEq] at h
      rw [← h.1]
      intro a ha
      exact absurd ha (List.not_mem_nil a)
    | some parts =>
      cases parts with
      | nil =>
        simp only [readAisles, hl] at h
        exact Except.noConfusion h
      | cons l rest =>
        by_cases hk : ((rest.length : ℤ)) ≠ 2 * l
        · simp only [readAisles, hl, if_pos hk, Except.ok.injEq, Prod.mk.injEq] at h
          rw [← h.1]
          intro a ha
          exact absurd ha (List.not_mem_nil a)
        · cases hr : readAisles lines (idx + 1) (aid + 1) n with
          | error e =>
            simp only [readAisles, hl, if_neg hk, hr] at h
            exact Except.noConfusion h
          | ok p =>
            rcases p with ⟨as2, idx3⟩
            simp only [readAisles, hl, if_neg hk, hr, Except.ok.injEq, Prod.mk.injEq] at h
            rw [← h.1]
            intro a ha
            rcases List.mem_cons.mp ha with h0 | h1
            · rw [h0]
              exact dictOfPairs_keys_nodup (toPairs rest)
            · exact ih (idx + 1) (aid + 1) as2 idx3 hr a h1

/-- Structural facts about any successfully parsed instance: the index
is built from the aisles, aisle ids are the dense range, inventories
have duplicate-free keys. -/
theorem parseInstance_ok_facts (lines : List (List ℤ)) (inst : Instance)
    (hp : parseInstance lines = Except.ok inst) :
    inst.item_locations = build_item_locations inst.aisles ∧
    inst.aisles.map Aisle.id = List.range' 0 inst.aisles.length ∧
    (∀ a ∈ inst.aisles, (a.inventory.map Prod.fst).Nodup) := by
  cases lines with
  | nil => simp [parseInstance] at hp
  | cons header tail =>
    cases header with
    | nil =>
      simp only [parseInstance, List.getElem?_cons_zero] at hp
      exact Except.noConfusion hp
    | cons a h1 =>
      cases h1 with
      | nil =>
        simp only [parseInstance, List.getElem?_cons_zero] at hp
        exact Except.noConfusion hp
      | cons b h2 =>
        cases h2 with
        | nil =>
          simp only [parseInstance, List.getElem?_cons_zero] at hp
          exact Except.noConfusion hp
        | cons c h3 =>
          cases h3 with
          | cons d h4 =>
            simp only [parseInstance, List.getElem?_cons_zero] at hp
            exact Except.noConfusion hp
          | nil =>
            cases hro : readOrders ([a, b, c] :: tail) 1 0 a.toNat with
            | error e =>
              simp only [parseInstance, List.getElem?_cons_zero, hro] at hp
              exact Except.noConfusion hp
            | ok p =>
              rcases p with ⟨os, idx⟩
              cases hra : readAisles ([a, b, c] :: tail) idx 0 c.toNat with
              | error e =>
                simp only [parseInstance, List.getElem?_cons_zero, hro, hra] at hp
                exact Except.noConfusion hp
              | ok q =>
                rcases q with ⟨as, idx2⟩
                simp only [parseInstance, List.getElem?_cons_zero, hro, hra] at hp
                injection hp with h5
                subst h5
                refine ⟨rfl, ?_, ?_⟩
                · exact readAisles_ids ([a, b, c] :: tail) c.toNat idx 0 as idx2 hra
                · exact readAisles_inventory_nodup ([a, b, c] :: tail) c.toNat idx 0 as idx2 hra

/-- C10: for every parsed instance and every item id, the
`item_locations` reverse index has no entry iff no aisle stocks the
item; and an existing entry is strictly ascending, lists each stocking
aisle's id exactly once, and contains nothing else. -/
theorem item_locations_index (lines : List (List ℤ)) (inst : Instance)
    (hp : parseInstance lines = Except.ok inst) (item : ℤ) :
    (ilLookup inst.item_locations item = none ↔
      ∀ a ∈ inst.aisles, dictMem a.inventory item = false) ∧
    (∀ l, ilLookup inst.item_locations item = some l →
      List.Sorted (· < ·) l ∧
      (∀ a ∈ inst.aisles, dictMem a.inventory item = true → l.count a.id = 1) ∧
      (∀ aid ∈ l, ∃ a ∈ inst.aisles, a.id = aid ∧ dictMem a.inventory item = true)) := by
  obtain ⟨hil, hids, hnd⟩ := parseInstance_ok_facts lines inst hp
  rw [hil, ilLookup_build inst.aisles item hnd]
  have hsorted_ids : List.Pairwise (· < ·) (inst.aisles.map Aisle.id) := by
    rw [hids]
    exact List.pairwise_lt_range' 0 inst.aisles.length
  have hsub : (mentioningAisles inst.aisles item).Sublist (inst.aisles.map Aisle.id) := by
    unfold mentioningAisles
    exact (List.filter_sublist inst.aisles).map Aisle.id
  have hsorted : List.Pairwise (· < ·) (mentioningAisles inst.aisles item) :=
    hsorted_ids.sublist hsub
  have hnodup : (mentioningAisles inst.aisles item).Nodup :=
    hsorted.imp (fun hlt => Nat.ne_of_lt hlt)
  constructor
  · by_cases hm : mentioningAisles inst.aisles item = []
    · rw [if_pos hm]
      constructor
      · intro _ a ha
        have hfilter : inst.aisles.filter (fun a => dictMem a.inventory item) = [] :=
          List.map_eq_nil_iff.mp hm
        have hna := List.filter_eq_nil_iff.mp hfilter a ha
        exact (Bool.not_eq_true _).mp hna
      · intro _
        rfl
    · rw [if_neg hm]
      constructor
      · intro hc
        exact absurd hc (by simp)
      · intro hall
        exfalso
        cases hfe : inst.aisles.filter (fun a => dictMem a.inventory item) with
        | nil =>
          refine hm ?_
          unfold mentioningAisles
          rw [hfe]
          rfl
        | cons a rest =>
          have ha : a ∈ inst.aisles.filter (fun a => dictMem a.inventory item) := by
            rw [hfe]
            exact List.mem_cons_self a rest
          have hmf := List.mem_filter.mp ha
          have := hall a hmf.1
          rw [hmf.2] at this
          exact Bool.noConfusion this
  · intro l hl
    by_cases hm : mentioningAisles inst.aisles item = []
    · rw [if_pos hm] at hl
      exact absurd hl (by simp)
    · rw [if_neg hm] at hl
      have hleq : l = mentioningAisles inst.aisles item := (Option.some.inj hl).symm
      subst hleq
      refine ⟨hsorted, ?_, ?_⟩
      · intro a ha hmem
        have hain : a ∈ inst.aisles.filter (fun a => dictMem a.inventory item) :=
          List.mem_filter.mpr ⟨ha, hmem⟩
        have hidin : a.id ∈ mentioningAisles inst.aisles item := by
          unfold mentioningAisles
          exact List.mem_map.mpr ⟨a, hain, rfl⟩
        exact List.count_eq_one_of_mem hnodup hidin
      · intro aid haid
        unfold mentioningAisles at haid
        rcases List.mem_map.mp haid with ⟨a, hain, heq⟩
        have hmf := List.mem_filter.mp hain
        exact ⟨a, hmf.1, heq, hmf.2⟩

/-- Witness input file for the index theorem: no orders, two aisles
(aisle 0 stocks item 0; aisle 1 stocks items 0 and 1), bounds `[1, 5]`. -/
def w10Lines : List (List ℤ) := [[0, 2, 2], [1, 0, 4], [2, 0, 1, 1, 2], [1, 5]]

/-- The instance `parseInstance` produces from `w10Lines`. -/
def w10Inst : Instance :=
  { num_orders := 0, num_items := 2, num_aisles := 2,
    orders := [],
    aisles := [{ id := 0, inventory := [(0, 4)] },
               { id := 1, inventory := [(0, 1), (1, 2)] }],
    item_locations := [(0, [0, 1]), (1, [1])],
    orders_by_item := [],
    min_wave_size := 1, max_wave_size := 5 }

/-- C10 witness: the index entry of item 0 in the parsed witness
instance is `[0, 1]` and has all the claimed properties. -/
theorem item_locations_index_witness :
    List.Sorted (· < ·) [0, 1] ∧
    (∀ a ∈ w10Inst.aisles, dictMem a.inventory 0 = true → List.count a.id [0, 1] = 1) ∧
    (∀ aid ∈ [0, 1], ∃ a ∈ w10Inst.aisles, a.id = aid ∧ dictMem a.inventory 0 = true) :=
  (item_locations_index w10Lines w10Inst (by rfl) 0).2 [0, 1] (by rfl)
